import Mathlib

/-!
# Verification development for `lib/pipeline.go` (siscia/portals)

A shallow embedding of the pipeline package:

* Go `string` and `[]byte` values are lists of bytes (`GoString`);
* a pointer field is an `Option` (`none` is the nil pointer), and a function that can
  dereference a nil pointer returns `Except Panic _`;
* a value stored in one of the four capability interfaces is a `Value`: a value of one of the
  two struct types the package declares, tagged with its dynamic type; a method call through an
  interface is a dispatch on that tag, and the conversion of a struct value to an interface
  (`Value.asInterface`) is allowed only when the struct type declares the methods of the
  interface;
* `NewPipeline` is a transition system: a state holds the five channels and the goroutines
  started so far, and an action is one atomic move of the caller or of one goroutine. It is
  stated for any implementation of the four interfaces (`Stages`) whose methods return.
-/

/-! ## Bytes and strings -/

/-- One byte. -/
abbrev Byte := Fin 256

/-- A Go `string` (equally a `[]byte`): an arbitrary sequence of bytes. -/
abbrev GoString := List Byte

/-! ## `crypto/sha256` (standard library) -/

namespace sha256

/-- The round constants of SHA-256. -/
def K : List Nat := [
  0x428a2f98, 0x71374491, 0xb5c0fbcf, 0xe9b5dba5, 0x3956c25b, 0x59f111f1, 0x923f82a4, 0xab1c5ed5,
  0xd807aa98, 0x12835b01, 0x243185be, 0x550c7dc3, 0x72be5d74, 0x80deb1fe, 0x9bdc06a7, 0xc19bf174,
  0xe49b69c1, 0xefbe4786, 0x0fc19dc6, 0x240ca1cc, 0x2de92c6f, 0x4a7484aa, 0x5cb0a9dc, 0x76f988da,
  0x983e5152, 0xa831c66d, 0xb00327c8, 0xbf597fc7, 0xc6e00bf3, 0xd5a79147, 0x06ca6351, 0x14292967,
  0x27b70a85, 0x2e1b2138, 0x4d2c6dfc, 0x53380d13, 0x650a7354, 0x766a0abb, 0x81c2c92e, 0x92722c85,
  0xa2bfe8a1, 0xa81a664b, 0xc24b8b70, 0xc76c51a3, 0xd192e819, 0xd6990624, 0xf40e3585, 0x106aa070,
  0x19a4c116, 0x1e376c08, 0x2748774c, 0x34b0bcb5, 0x391c0cb3, 0x4ed8aa4a, 0x5b9cca4f, 0x682e6ff3,
  0x748f82ee, 0x78a5636f, 0x84c87814, 0x8cc70208, 0x90befffa, 0xa4506ceb, 0xbef9a3f7, 0xc67178f2]

/-- The initial hash value of SHA-256. -/
def init : List Nat :=
  [0x6a09e667, 0xbb67ae85, 0x3c6ef372, 0xa54ff53a, 0x510e527f, 0x9b05688c, 0x1f83d9ab, 0x5be0cd19]

/-- Addition of 32-bit words. -/
def add32 (x y : Nat) : Nat := (x + y) % 2 ^ 32

/-- Rotation of a 32-bit word to the right. -/
def rotr (x n : Nat) : Nat := ((x >>> n) ||| (x <<< (32 - n))) % 2 ^ 32

/-- Bitwise complement of a 32-bit word. -/
def not32 (x : Nat) : Nat := (2 ^ 32 - 1) ^^^ x

/-- The `width` bytes of `n`, most significant first. -/
def bigEndian (n width : Nat) : List Nat :=
  (List.range width).map (fun i => (n >>> (8 * (width - 1 - i))) % 256)

/-- Message padding: a `0x80` byte, zero bytes up to 56 modulo 64, the bit length on 8 bytes. -/
def pad (msg : List Nat) : List Nat :=
  msg ++ [0x80] ++ List.replicate ((119 - msg.length % 64) % 64) 0 ++
    bigEndian ((8 * msg.length) % 2 ^ 64) 8

/-- The `j`-th big-endian 32-bit word of a chunk. -/
def word (bs : List Nat) (j : Nat) : Nat :=
  bs.getD (4 * j) 0 <<< 24 ||| bs.getD (4 * j + 1) 0 <<< 16 |||
    bs.getD (4 * j + 2) 0 <<< 8 ||| bs.getD (4 * j + 3) 0

/-- The 64-word message schedule of a chunk. -/
def schedule (chunk : List Nat) : List Nat :=
  (List.range 48).foldl
    (fun w t =>
      let i := t + 16
      let v1 := w.getD (i - 2) 0
      let t1 := rotr v1 17 ^^^ rotr v1 19 ^^^ (v1 >>> 10)
      let v2 := w.getD (i - 15) 0
      let t2 := rotr v2 7 ^^^ rotr v2 18 ^^^ (v2 >>> 3)
      w ++ [add32 (add32 (add32 t1 (w.getD (i - 7) 0)) t2) (w.getD (i - 16) 0)])
    ((List.range 16).map (word chunk))

/-- One of the 64 rounds of the compression function. -/
def round (w : List Nat) (s : List Nat) (i : Nat) : List Nat :=
  match s with
  | [a, b, c, d, e, f, g, h] =>
    let t1 := add32 (add32 (add32 (add32 h (rotr e 6 ^^^ rotr e 11 ^^^ rotr e 25))
      ((e &&& f) ^^^ (not32 e &&& g))) (K.getD i 0)) (w.getD i 0)
    let t2 := add32 (rotr a 2 ^^^ rotr a 13 ^^^ rotr a 22)
      ((a &&& b) ^^^ (a &&& c) ^^^ (b &&& c))
    [add32 t1 t2, a, b, c, add32 d t1, e, f, g]
  | _ => s

/-- The compression of one 64-byte chunk into the running hash. -/
def block (h : List Nat) (chunk : List Nat) : List Nat :=
  List.zipWith add32 h ((List.range 64).foldl (round (schedule chunk)) h)

/-- The first `n` 64-byte chunks of a byte sequence. -/
def chunks : Nat → List Nat → List (List Nat)
  | 0, _ => []
  | n + 1, bs => bs.take 64 :: chunks n (bs.drop 64)

/-- The SHA-256 digest (32 bytes) of a byte sequence: Go `sha256.Sum256`. -/
def Sum256 (data : List Byte) : List Byte :=
  let p := pad (data.map Fin.val)
  let h := (chunks (p.length / 64) p).foldl block init
  (h.flatMap (fun x => bigEndian x 4)).map Fin.ofNat

end sha256

/-! ## `fmt` (standard library): the two verbs `NewS3Object` uses -/

namespace fmt

/-- The byte of the decimal digit `d`: `'0' + d`. -/
def digitByte (d : Nat) : Byte := Fin.ofNat (48 + d)

/-- The digit loop of `fmtInteger` for base 10: writes the digits of `u` right to left in front
of `buf`. The first argument bounds the number of iterations and is at least `u`. -/
def fmtDigits : Nat → Nat → List Byte → List Byte
  | 0, u, buf => digitByte u :: buf
  | fuel + 1, u, buf =>
    if 10 ≤ u then fmtDigits fuel (u / 10) (digitByte (u - (u / 10) * 10) :: buf)
    else digitByte u :: buf

/-- The verb `%d` on a signed integer: a minus sign when negative, then the digits of the
absolute value. -/
def fmtInteger (v : Int) : List Byte :=
  if v < 0 then 45 :: fmtDigits v.natAbs v.natAbs [] else fmtDigits v.natAbs v.natAbs []

/-- The verb `%s` on a string: its bytes. -/
def fmtS (s : GoString) : List Byte := s

/-- The verb `%s` on a byte array: its bytes, written as a string. -/
def fmtBytes (b : List Byte) : GoString := b

end fmt

/-! ## The external types `NewS3Object` receives -/

namespace time

/-- A `time.Time`: the seconds elapsed since the Unix epoch and the nanoseconds within the
second. -/
structure Time where
  sec : Int
  nsec : Nat
  deriving DecidableEq, Repr

/-- The method `Unix`: the number of seconds elapsed since the Unix epoch. -/
def Time.Unix (t : Time) : Int := t.sec

end time

namespace session

/-- A `session.Session`, identified by a handle. -/
structure Session where
  handle : Nat
  deriving DecidableEq, Repr

end session

namespace s3

/-- The struct `s3.Owner` of the SDK. -/
structure Owner where
  DisplayName : Option GoString
  ID : Option GoString
  deriving DecidableEq, Repr

/-- The struct `s3.Object` of the SDK: every field is a pointer. -/
structure Object where
  ETag : Option GoString
  Key : Option GoString
  LastModified : Option time.Time
  Owner : Option Owner
  Size : Option Int
  StorageClass : Option GoString
  deriving DecidableEq, Repr

end s3

/-! ## The types of `pipeline.go` -/

/-- The struct `PipelineOutput`: it has no field. -/
structure PipelineOutput where
  deriving DecidableEq, Repr

/-- The struct `GenericError`: it has no field. -/
structure GenericError where
  deriving DecidableEq, Repr

/-- The struct `S3Object`. -/
structure S3Object where
  Key : GoString
  Hash : GoString
  Session : Option session.Session
  deriving DecidableEq, Repr

/-- A value held by an interface: a value of one of the struct types of the package together
with its dynamic type. -/
inductive Value where
  | genericError (e : GenericError)
  | s3Object (o : S3Object)
  deriving DecidableEq, Repr

/-- The interface `IS3RemoteFile`, as the values it can hold. -/
abbrev IS3RemoteFile := Value

/-- The interface `IS3LocalFile`, as the values it can hold. -/
abbrev IS3LocalFile := Value

/-- The interface `IS3IngestedFile`, as the values it can hold. -/
abbrev IS3IngestedFile := Value

/-- The four method names of the package. -/
inductive Method where
  | MakeS3RemoteFile
  | DownloadFile
  | Ingest
  | Cleanup
  deriving DecidableEq, Repr

/-- The four interfaces of the package. -/
inductive Interface where
  | PipelineInput
  | IS3RemoteFile
  | IS3LocalFile
  | IS3IngestedFile
  deriving DecidableEq, Repr

/-- The method set each interface declares: one method each. -/
def Interface.methods : Interface → List Method
  | .PipelineInput => [.MakeS3RemoteFile]
  | .IS3RemoteFile => [.DownloadFile]
  | .IS3LocalFile => [.Ingest]
  | .IS3IngestedFile => [.Cleanup]

/-- The two struct types that have methods. -/
inductive ConcreteType where
  | GenericError
  | S3Object
  deriving DecidableEq, Repr

/-- The methods the source declares on each struct type. -/
def ConcreteType.methods : ConcreteType → List Method
  | .GenericError => [.DownloadFile, .Ingest, .Cleanup]
  | .S3Object => [.MakeS3RemoteFile, .DownloadFile]

/-- A type implements an interface when it declares every method of the interface. -/
def ConcreteType.implements (T : ConcreteType) (I : Interface) : Bool :=
  I.methods.all (fun m => decide (m ∈ T.methods))

/-- The dynamic type of a value. -/
def Value.dynamicType : Value → ConcreteType
  | .genericError _ => .GenericError
  | .s3Object _ => .S3Object

/-- Whether a value is the failure sentinel. -/
def Value.isSentinel : Value → Bool
  | .genericError _ => true
  | .s3Object _ => false

/-! ## The methods of `GenericError` -/

/-- The method `DownloadFile` of `GenericError`. -/
def GenericError.DownloadFile (_e : GenericError) : IS3LocalFile :=
  Value.genericError {}

/-- The method `Ingest` of `GenericError`. -/
def GenericError.Ingest (_e : GenericError) : IS3IngestedFile :=
  Value.genericError {}

/-- The method `Cleanup` of `GenericError`. -/
def GenericError.Cleanup (_e : GenericError) : PipelineOutput :=
  {}

/-! ## `S3Object` -/

/-- The failure of a Go function. -/
inductive Panic where
  | nilPointerDereference
  deriving DecidableEq, Repr

/-- The dereference of a pointer. -/
def deref {α : Type} : Option α → Except Panic α
  | some a => .ok a
  | none => .error .nilPointerDereference

/-- The bytes `NewS3Object` hashes, `[]byte(fmt.Sprintf("%s%d", key, unix))`: the key under the
verb `%s`, then the Unix time under the verb `%d`. -/
def toHash (key : GoString) (unix : Int) : List Byte :=
  fmt.fmtS key ++ fmt.fmtInteger unix

/-- The function `NewS3Object`. The operands `*s3obj.Key` and `s3obj.LastModified.Unix()`
dereference a pointer each. -/
def NewS3Object (s3obj : s3.Object) (session : Option session.Session) : Except Panic S3Object := do
  let key ← deref s3obj.Key
  let lastModified ← deref s3obj.LastModified
  let hash : GoString := fmt.fmtBytes (sha256.Sum256 (toHash key lastModified.Unix))
  let key ← deref s3obj.Key
  pure { Key := key, Hash := hash, Session := session }

/-! ## The fingerprint as the specification words it -/

namespace Spec

/-- The decimal representation of an integer: a minus sign when it is negative, then the
decimal digits of its absolute value, most significant first, `0` being written `0`. -/
def decimal (t : Int) : List Byte :=
  (if t < 0 then [45] else []) ++
    (if t.natAbs = 0 then [48]
      else ((Nat.digits 10 t.natAbs).reverse.map (fun d => Fin.ofNat (48 + d))))

/-- The fingerprint of the specification: `SHA256(key ++ decimal(last_modified_unix))`. -/
def fingerprint (key : GoString) (unix : Int) : List Byte :=
  sha256.Sum256 (key ++ decimal unix)

end Spec

/-- The conversion of a struct value to an interface type, as `return x` makes it in a method
whose result type is an interface: Go allows it only when the type of `x` implements the
interface. `none` when it does not: the statement is rejected and yields no interface value. -/
def Value.asInterface (I : Interface) (v : Value) : Option Value :=
  if v.dynamicType.implements I then some v else none

/-- The method `MakeS3RemoteFile` of `S3Object`: `return s3obj`, converted to the result type
`IS3RemoteFile`. -/
def S3Object.MakeS3RemoteFile (s3obj : S3Object) : Option IS3RemoteFile :=
  Value.asInterface Interface.IS3RemoteFile (Value.s3Object s3obj)

/-- The method `DownloadFile` of `S3Object`: `return s3obj`, converted to the result type
`IS3LocalFile`. -/
def S3Object.DownloadFile (s3obj : S3Object) : Option IS3LocalFile :=
  Value.asInterface Interface.IS3LocalFile (Value.s3Object s3obj)

/-! ## Method calls through an interface -/

/-- A call of `MakeS3RemoteFile` on an interface value: `none` when the dynamic type declares no
such method. -/
def Value.MakeS3RemoteFile : Value → Option IS3RemoteFile
  | .s3Object o => o.MakeS3RemoteFile
  | .genericError _ => none

/-- A call of `DownloadFile` on an interface value: `none` when the method of the dynamic type
yields no value. -/
def Value.DownloadFile : Value → Option IS3LocalFile
  | .s3Object o => o.DownloadFile
  | .genericError e => some e.DownloadFile

/-- A call of `Ingest` on an interface value: `none` when the dynamic type declares no such
method. -/
def Value.Ingest : Value → Option IS3IngestedFile
  | .s3Object _ => none
  | .genericError e => some e.Ingest

/-- A call of `Cleanup` on an interface value: `none` when the dynamic type declares no such
method. -/
def Value.Cleanup : Value → Option PipelineOutput
  | .s3Object _ => none
  | .genericError e => some e.Cleanup

/-- The three interfaces that are the output type of a stage. -/
inductive StageOutput where
  | remoteFile
  | localFile
  | ingestedFile
  deriving DecidableEq, Repr

/-- The call the cleanup worker makes on a value taken from `cleanupChan`: the values obtained
on the way (none) and the final output. -/
def callsFromIngestedFile (v : IS3IngestedFile) : Option (List Value × PipelineOutput) :=
  (v.Cleanup).map (fun out => ([], out))

/-- The calls the ingest worker and then the cleanup worker make on a value taken from
`ingestChan`. -/
def callsFromLocalFile (v : IS3LocalFile) : Option (List Value × PipelineOutput) :=
  (v.Ingest).bind (fun g => (callsFromIngestedFile g).map (fun r => (g :: r.1, r.2)))

/-- The calls the download, ingest and cleanup workers make on a value taken from
`downloadChan`. -/
def callsFromRemoteFile (v : IS3RemoteFile) : Option (List Value × PipelineOutput) :=
  (v.DownloadFile).bind (fun l => (callsFromLocalFile l).map (fun r => (l :: r.1, r.2)))

/-- The capability calls the workers make on a value that leaves a stage, up to the end of the
pipeline: the values obtained on the way and the final output. -/
def remainingCalls : StageOutput → Value → Option (List Value × PipelineOutput)
  | .ingestedFile, v => callsFromIngestedFile v
  | .localFile, v => callsFromLocalFile v
  | .remoteFile, v => callsFromRemoteFile v

/-! ## `NewPipeline` -/

/-- An implementation of the four capability interfaces: the types of the values that travel
through the pipeline and, for each, the method the worker of the stage calls on it. A method
is a function: a call returns. -/
structure Stages where
  PipelineInput : Type
  IS3RemoteFile : Type
  IS3LocalFile : Type
  IS3IngestedFile : Type
  MakeS3RemoteFile : PipelineInput → IS3RemoteFile
  DownloadFile : IS3RemoteFile → IS3LocalFile
  Ingest : IS3LocalFile → IS3IngestedFile
  Cleanup : IS3IngestedFile → PipelineOutput

namespace NewPipeline

/-- The capacity of every channel. -/
def buffer : Nat := 10

/-- The number of iterations of the loop that starts the goroutines. -/
def workers : Nat := 10

/-- The state of a worker goroutine `for x := range in { y := x.M(); out <- y }`: at the
receive of the `range`, at the send with the value `y` it has computed, or past the loop. -/
inductive Worker (α : Type) where
  | receiving
  | sending (y : α)
  | exited
  deriving DecidableEq, Repr

/-- The number of values a worker holds: one at the send, none otherwise. -/
def Worker.load {α : Type} : Worker α → Nat
  | .sending _ => 1
  | _ => 0

/-- Whether a worker is still in its loop: 1 if so, 0 once it has exited. -/
def Worker.alive {α : Type} : Worker α → Nat
  | .exited => 0
  | _ => 1

/-- The number of values held by the workers of a stage. -/
def held {α : Type} (pool : List (Worker α)) : Nat := (pool.map Worker.load).sum

/-- The number of workers of a stage that are still in their loop. -/
def alive {α : Type} (pool : List (Worker α)) : Nat := (pool.map Worker.alive).sum

/-- The state of the pipeline: the two channels `NewPipeline` returns, the three channels
between the stages, the loop variable `w`, the goroutines of each stage started so far, and two
history variables: the number of values the caller has sent on `chanInput` and the values the
caller has received from `chanOutput`. -/
structure State (S : Stages) where
  chanInput : List S.PipelineInput
  chanInputClosed : Bool
  chanOutput : List PipelineOutput
  downloadChan : List S.IS3RemoteFile
  ingestChan : List S.IS3LocalFile
  cleanupChan : List S.IS3IngestedFile
  w : Nat
  submitWorkers : List (Worker S.IS3RemoteFile)
  downloadWorkers : List (Worker S.IS3LocalFile)
  ingestWorkers : List (Worker S.IS3IngestedFile)
  cleanupWorkers : List (Worker PipelineOutput)
  submitted : Nat
  received : List PipelineOutput

/-- The state when `NewPipeline` returns: empty channels, `w = 1`, no worker started. -/
def init (S : Stages) : State S where
  chanInput := []
  chanInputClosed := false
  chanOutput := []
  downloadChan := []
  ingestChan := []
  cleanupChan := []
  w := 1
  submitWorkers := []
  downloadWorkers := []
  ingestWorkers := []
  cleanupWorkers := []
  submitted := 0
  received := []

/-- One atomic move: of the caller (a send on `chanInput`, its close, a receive from
`chanOutput`), of the loop that starts the goroutines (one iteration), or of the `i`-th worker
of a stage (the receive of its `range` together with the method call, its send, or the end of
its loop). -/
inductive Action (S : Stages) where
  | submit (x : S.PipelineInput)
  | close
  | spawn
  | submitReceive (i : Nat)
  | submitSend (i : Nat)
  | submitExit (i : Nat)
  | downloadReceive (i : Nat)
  | downloadSend (i : Nat)
  | ingestReceive (i : Nat)
  | ingestSend (i : Nat)
  | cleanupReceive (i : Nat)
  | cleanupSend (i : Nat)
  | take

/-- The `i`-th worker of a pool takes the oldest value of its input channel and calls the
method `f` on it. Not possible (the worker stays blocked) when the channel is empty. -/
def receive {α β : Type} (f : α → β) (ch : List α) (pool : List (Worker β)) (i : Nat) :
    Option (List α × List (Worker β)) :=
  match pool[i]?, ch with
  | some .receiving, x :: rest => some (rest, pool.set i (.sending (f x)))
  | _, _ => none

/-- The `i`-th worker of a pool sends the value it holds on its output channel. Not possible
(the worker stays blocked, with its value) when the channel is full. -/
def send {β : Type} (pool : List (Worker β)) (ch : List β) (i : Nat) :
    Option (List (Worker β) × List β) :=
  match pool[i]? with
  | some (.sending y) =>
    if ch.length < buffer then some (pool.set i .receiving, ch ++ [y]) else none
  | _ => none

/-- The `range` loop of the `i`-th worker of a pool ends: its channel is closed and empty. -/
def exit {β : Type} (closed : Bool) (empty : Bool) (pool : List (Worker β)) (i : Nat) :
    Option (List (Worker β)) :=
  match pool[i]? with
  | some .receiving => if closed && empty then some (pool.set i .exited) else none
  | _ => none

/-- The effect of an action, `none` when the action is not possible in the state: the
goroutine that would make it is blocked, or is not at that statement. The caller neither sends
on `chanInput` nor closes it once it is closed (either would panic). -/
def step {S : Stages} (s : State S) : Action S → Option (State S)
  | .submit x =>
    if s.chanInputClosed = false ∧ s.chanInput.length < buffer then
      some { s with chanInput := s.chanInput ++ [x], submitted := s.submitted + 1 }
    else none
  | .close =>
    if s.chanInputClosed = false then some { s with chanInputClosed := true } else none
  | .spawn =>
    if s.w ≤ workers then
      some { s with
        w := s.w + 1
        submitWorkers := s.submitWorkers ++ [.receiving]
        downloadWorkers := s.downloadWorkers ++ [.receiving]
        ingestWorkers := s.ingestWorkers ++ [.receiving]
        cleanupWorkers := s.cleanupWorkers ++ [.receiving] }
    else none
  | .submitReceive i =>
    (receive S.MakeS3RemoteFile s.chanInput s.submitWorkers i).map
      (fun r => { s with chanInput := r.1, submitWorkers := r.2 })
  | .submitSend i =>
    (send s.submitWorkers s.downloadChan i).map
      (fun r => { s with submitWorkers := r.1, downloadChan := r.2 })
  | .submitExit i =>
    (exit s.chanInputClosed s.chanInput.isEmpty s.submitWorkers i).map
      (fun p => { s with submitWorkers := p })
  | .downloadReceive i =>
    (receive S.DownloadFile s.downloadChan s.downloadWorkers i).map
      (fun r => { s with downloadChan := r.1, downloadWorkers := r.2 })
  | .downloadSend i =>
    (send s.downloadWorkers s.ingestChan i).map
      (fun r => { s with downloadWorkers := r.1, ingestChan := r.2 })
  | .ingestReceive i =>
    (receive S.Ingest s.ingestChan s.ingestWorkers i).map
      (fun r => { s with ingestChan := r.1, ingestWorkers := r.2 })
  | .ingestSend i =>
    (send s.ingestWorkers s.cleanupChan i).map
      (fun r => { s with ingestWorkers := r.1, cleanupChan := r.2 })
  | .cleanupReceive i =>
    (receive S.Cleanup s.cleanupChan s.cleanupWorkers i).map
      (fun r => { s with cleanupChan := r.1, cleanupWorkers := r.2 })
  | .cleanupSend i =>
    (send s.cleanupWorkers s.chanOutput i).map
      (fun r => { s with cleanupWorkers := r.1, chanOutput := r.2 })
  | .take =>
    match s.chanOutput with
    | out :: rest => some { s with chanOutput := rest, received := s.received ++ [out] }
    | [] => none

/-- The state after a sequence of actions, `none` when one of them is not possible. -/
def run {S : Stages} (s : State S) : List (Action S) → Option (State S)
  | [] => some s
  | a :: rest => (step s a).bind (fun t => run t rest)

/-- A state the pipeline can be in: the result of some sequence of actions from the start. -/
def Reachable {S : Stages} (s : State S) : Prop := ∃ acts, run (init S) acts = some s

/-- No action is possible: every goroutine is blocked or has ended. -/
def Quiescent {S : Stages} (s : State S) : Prop := ∀ a, step s a = none

/-- The number of values inside the pipeline: in the five channels and held by the workers. -/
def inFlight {S : Stages} (s : State S) : Nat :=
  s.chanInput.length + held s.submitWorkers + s.downloadChan.length + held s.downloadWorkers +
    s.ingestChan.length + held s.ingestWorkers + s.cleanupChan.length + held s.cleanupWorkers +
    s.chanOutput.length

/-- The number of actions still to come once `chanInput` is closed: for each value the moves
that separate it from the caller of `chanOutput`, the iterations of the starting loop, and the
end of each worker of the first stage. -/
def remaining {S : Stages} (s : State S) : Nat :=
  9 * s.chanInput.length + 8 * held s.submitWorkers + 7 * s.downloadChan.length +
    6 * held s.downloadWorkers + 5 * s.ingestChan.length + 4 * held s.ingestWorkers +
    3 * s.cleanupChan.length + 2 * held s.cleanupWorkers + s.chanOutput.length +
    alive s.submitWorkers + 2 * (workers + 1 - s.w)

/-- The invariant of the pipeline: the loop variable counts the goroutines started in each
stage, no channel holds more than its capacity, every submitted item is in a channel, held by a
worker, or received, only workers of the first stage leave their loop, and they do so only
once the intake is closed and empty. -/
structure Consistent {S : Stages} (s : State S) : Prop where
  w_pos : 1 ≤ s.w
  w_le : s.w ≤ workers + 1
  len1 : s.submitWorkers.length + 1 = s.w
  len2 : s.downloadWorkers.length + 1 = s.w
  len3 : s.ingestWorkers.length + 1 = s.w
  len4 : s.cleanupWorkers.length + 1 = s.w
  cap0 : s.chanInput.length ≤ buffer
  cap1 : s.downloadChan.length ≤ buffer
  cap2 : s.ingestChan.length ≤ buffer
  cap3 : s.cleanupChan.length ≤ buffer
  cap4 : s.chanOutput.length ≤ buffer
  conserve : s.submitted = inFlight s + s.received.length
  alive2 : alive s.downloadWorkers = s.downloadWorkers.length
  alive3 : alive s.ingestWorkers = s.ingestWorkers.length
  alive4 : alive s.cleanupWorkers = s.cleanupWorkers.length
  exited1 : alive s.submitWorkers < s.submitWorkers.length →
    s.chanInputClosed = true ∧ s.chanInput.length = 0


end NewPipeline

/-! ## Concrete inputs -/

/-- An object of the store with key `a1`, last modified 2 seconds after the epoch. -/
def sampleObject : s3.Object where
  ETag := none
  Key := some [97, 49]
  LastModified := some ⟨2, 0⟩
  Owner := none
  Size := none
  StorageClass := none

/-- An object of the store with key `a`, last modified 12 seconds after the epoch. -/
def collidingObject : s3.Object where
  ETag := none
  Key := some [97]
  LastModified := some ⟨12, 0⟩
  Owner := none
  Size := none
  StorageClass := none

/-- An implementation of the interfaces in which the first stage of every item fails: the item
is replaced by the failure sentinel, which the later stages pass on. -/
def failingStages : Stages where
  PipelineInput := Unit
  IS3RemoteFile := GenericError
  IS3LocalFile := GenericError
  IS3IngestedFile := GenericError
  MakeS3RemoteFile := fun _ => {}
  DownloadFile := fun _ => {}
  Ingest := fun _ => {}
  Cleanup := GenericError.Cleanup

namespace NewPipeline

/-- Three items are submitted, the intake is closed, and the first item has reached the
download stage. -/
def threeSubmitted : List (Action failingStages) :=
  [Action.spawn, Action.submit (), Action.submit (), Action.submit (), Action.close,
    Action.submitReceive 0, Action.submitSend 0, Action.downloadReceive 0]

/-- The state after `threeSubmitted`. -/
def threeSubmittedState : State failingStages where
  chanInput := [(), ()]
  chanInputClosed := true
  chanOutput := []
  downloadChan := []
  ingestChan := []
  cleanupChan := []
  w := 2
  submitWorkers := [Worker.receiving]
  downloadWorkers := [Worker.sending {}]
  ingestWorkers := [Worker.receiving]
  cleanupWorkers := [Worker.receiving]
  submitted := 3
  received := []

/-- Twenty items are submitted while nothing is received from the output: the workers move the
first ten to `ingestChan` and the next ten to `downloadChan`. -/
def twentyAccepted : List (Action failingStages) :=
  Action.spawn ::
    ((List.replicate 10
        [Action.submit (), Action.submitReceive 0, Action.submitSend 0, Action.downloadReceive 0,
          Action.downloadSend 0]).flatten ++
      (List.replicate 10
        [Action.submit (), Action.submitReceive 0, Action.submitSend 0]).flatten)

/-- The state after `twentyAccepted`: the intake is empty. -/
def twentyAcceptedState : State failingStages where
  chanInput := []
  chanInputClosed := false
  chanOutput := []
  downloadChan := List.replicate 10 {}
  ingestChan := List.replicate 10 {}
  cleanupChan := []
  w := 2
  submitWorkers := [Worker.receiving]
  downloadWorkers := [Worker.receiving]
  ingestWorkers := [Worker.receiving]
  cleanupWorkers := [Worker.receiving]
  submitted := 20
  received := []

/-- The moves that bring one new item from the caller to worker `i` of stage `k` (1 to 4),
through worker 0 of the stages before. -/
def bringTo (k i : Nat) : List (Action failingStages) :=
  [Action.submit ()] ++
  (if k = 1 then [Action.submitReceive i] else
    [Action.submitReceive 0, Action.submitSend 0] ++
    (if k = 2 then [Action.downloadReceive i] else
      [Action.downloadReceive 0, Action.downloadSend 0] ++
      (if k = 3 then [Action.ingestReceive i] else
        [Action.ingestReceive 0, Action.ingestSend 0, Action.cleanupReceive i])))

/-- The send of worker 0 of stage `k`. -/
def sendOf (k : Nat) : Action failingStages :=
  if k = 1 then Action.submitSend 0 else if k = 2 then Action.downloadSend 0
  else if k = 3 then Action.ingestSend 0 else Action.cleanupSend 0

/-- Ten items fill the channel after stage `k`, then ten more occupy the workers of stage `k`. -/
def fillStage (k : Nat) : List (Action failingStages) :=
  (List.replicate 10 (bringTo k 0 ++ [sendOf k])).flatten ++
    ((List.range 10).map (bringTo k)).flatten

/-- Ninety items are submitted while nothing is received from the output: the ten iterations
of the starting loop, then the pipeline is filled from its end to its start. -/
def ninetyAccepted : List (Action failingStages) :=
  List.replicate 10 Action.spawn ++ fillStage 4 ++ fillStage 3 ++ fillStage 2 ++ fillStage 1 ++
    List.replicate 10 (Action.submit ())

/-- The state after `ninetyAccepted`: every channel is full and every worker holds an item. -/
def ninetyAcceptedState : State failingStages where
  chanInput := List.replicate 10 ()
  chanInputClosed := false
  chanOutput := List.replicate 10 {}
  downloadChan := List.replicate 10 {}
  ingestChan := List.replicate 10 {}
  cleanupChan := List.replicate 10 {}
  w := 11
  submitWorkers := List.replicate 10 (Worker.sending {})
  downloadWorkers := List.replicate 10 (Worker.sending {})
  ingestWorkers := List.replicate 10 (Worker.sending {})
  cleanupWorkers := List.replicate 10 (Worker.sending {})
  submitted := 90
  received := []

end NewPipeline

/-! ## The conversions to an interface in the methods of `GenericError` are allowed -/

theorem genericError_asInterface (e : GenericError) :
    Value.asInterface Interface.IS3RemoteFile (Value.genericError e) =
      some (Value.genericError e) ∧
    Value.asInterface Interface.IS3LocalFile (Value.genericError e) = some e.DownloadFile ∧
    Value.asInterface Interface.IS3IngestedFile (Value.genericError e) = some e.Ingest :=
  ⟨rfl, rfl, rfl⟩

/-! ## The verb `%d` writes the decimal representation -/

theorem fmtDigits_eq (fuel u : Nat) (buf : List Byte) (h : u ≤ fuel) :
    fmt.fmtDigits fuel u buf =
      (if u = 0 then [48]
        else ((Nat.digits 10 u).reverse.map (fun d => (Fin.ofNat (48 + d) : Byte)))) ++ buf := by
  induction fuel generalizing u buf with
  | zero =>
    have : u = 0 := by omega
    subst this
    rfl
  | succ n ih =>
    unfold fmt.fmtDigits
    by_cases h10 : 10 ≤ u
    · rw [if_pos h10, ih (u / 10) _ (by omega)]
      have h1 : u / 10 ≠ 0 := by omega
      have h2 : u ≠ 0 := by omega
      have hd : Nat.digits 10 u = u % 10 :: Nat.digits 10 (u / 10) :=
        Nat.digits_def' (by norm_num) (by omega)
      rw [if_neg h1, if_neg h2, hd]
      have h3 : u - u / 10 * 10 = u % 10 := by omega
      simp only [fmt.digitByte, h3, List.reverse_cons, List.map_append, List.map_cons,
        List.map_nil, List.append_assoc, List.singleton_append]
    · rw [if_neg h10]
      by_cases h0 : u = 0
      · subst h0
        rfl
      · rw [if_neg h0, Nat.digits_of_lt 10 u h0 (by omega)]
        simp [fmt.digitByte]

theorem fmtInteger_eq_decimal (v : Int) : fmt.fmtInteger v = Spec.decimal v := by
  unfold fmt.fmtInteger Spec.decimal
  rw [fmtDigits_eq _ _ _ (le_refl _)]
  by_cases hv : v < 0 <;> simp [hv]

theorem toHash_eq (k : GoString) (t : Int) : toHash k t = k ++ Spec.decimal t := by
  simp [toHash, fmt.fmtS, fmtInteger_eq_decimal]

theorem NewS3Object_ok (s3obj : s3.Object) (sess : Option session.Session) (k : GoString)
    (tm : time.Time) (hk : s3obj.Key = some k) (ht : s3obj.LastModified = some tm) :
    NewS3Object s3obj sess = .ok ⟨k, Spec.fingerprint k tm.Unix, sess⟩ := by
  simp only [NewS3Object, hk, ht, deref, toHash_eq, fmt.fmtBytes, Spec.fingerprint]
  rfl

/-! ## Counting lemmas for the worker pools and the invariant -/

namespace NewPipeline

theorem sum_map_set {α : Type} (f : Worker α → Nat) (pool : List (Worker α)) (i : Nat)
    (old new : Worker α) (h : pool[i]? = some old) :
    ((pool.set i new).map f).sum + f old = (pool.map f).sum + f new := by
  induction pool generalizing i with
  | nil => simp at h
  | cons a l ih =>
    cases i with
    | zero =>
      simp at h
      subst h
      simp [List.set]
      omega
    | succ j =>
      simp at h
      have := ih j h
      simp only [List.set, List.map, List.sum_cons] at this ⊢
      omega

theorem receive_some {α β : Type} {f : α → β} {ch : List α} {pool : List (Worker β)} {i : Nat}
    {r : List α × List (Worker β)} (h : receive f ch pool i = some r) :
    ∃ x, ch = x :: r.1 ∧ pool[i]? = some .receiving ∧ r.2 = pool.set i (.sending (f x)) := by
  unfold receive at h
  split at h
  · simp at h
    subst h
    exact ⟨_, rfl, by assumption, rfl⟩
  · simp at h

theorem send_some {β : Type} {pool : List (Worker β)} {ch : List β} {i : Nat}
    {r : List (Worker β) × List β} (h : send pool ch i = some r) :
    ∃ y, pool[i]? = some (.sending y) ∧ ch.length < buffer ∧ r.1 = pool.set i .receiving ∧
      r.2 = ch ++ [y] := by
  unfold send at h
  split at h
  · split at h
    · simp at h
      subst h
      exact ⟨_, by assumption, by assumption, rfl, rfl⟩
    · simp at h
  · simp at h

theorem exit_some {β : Type} {closed empty : Bool} {pool : List (Worker β)} {i : Nat}
    {p : List (Worker β)} (h : exit closed empty pool i = some p) :
    pool[i]? = some .receiving ∧ closed = true ∧ empty = true ∧ p = pool.set i .exited := by
  unfold exit at h
  split at h
  · split at h
    · simp at h
      subst h
      rename_i h1 h2
      simp at h2
      exact ⟨h1, h2.1, h2.2, rfl⟩
    · simp at h
  · simp at h

theorem held_le_alive {α : Type} (pool : List (Worker α)) : held pool ≤ alive pool := by
  induction pool with
  | nil => simp [held, alive]
  | cons a l ih =>
    simp only [held, alive, List.map, List.sum_cons] at ih ⊢
    cases a <;> simp [Worker.load, Worker.alive] <;> omega

theorem alive_le_length {α : Type} (pool : List (Worker α)) : alive pool ≤ pool.length := by
  induction pool with
  | nil => simp [alive]
  | cons a l ih =>
    simp only [alive, List.map, List.sum_cons, List.length_cons] at ih ⊢
    cases a <;> simp [Worker.alive] <;> omega

theorem held_append_receiving {α : Type} (pool : List (Worker α)) :
    held (pool ++ [.receiving]) = held pool := by
  simp [held, Worker.load]

theorem alive_append_receiving {α : Type} (pool : List (Worker α)) :
    alive (pool ++ [.receiving]) = alive pool + 1 := by
  simp [alive, Worker.alive]

theorem receive_counts {α β : Type} {f : α → β} {ch : List α} {pool : List (Worker β)} {i : Nat}
    {r : List α × List (Worker β)} (h : receive f ch pool i = some r) :
    ch.length = r.1.length + 1 ∧ r.2.length = pool.length ∧ held r.2 = held pool + 1 ∧
      alive r.2 = alive pool := by
  obtain ⟨x, h1, h2, h3⟩ := receive_some h
  have e1 := sum_map_set Worker.load pool i .receiving (.sending (f x)) h2
  have e2 := sum_map_set Worker.alive pool i .receiving (.sending (f x)) h2
  simp only [Worker.load, Worker.alive] at e1 e2
  rw [h1, h3]
  simp only [held, alive, List.length_cons, List.length_set]
  refine ⟨trivial, trivial, ?_, ?_⟩ <;> omega

theorem send_counts {β : Type} {pool : List (Worker β)} {ch : List β} {i : Nat}
    {r : List (Worker β) × List β} (h : send pool ch i = some r) :
    r.2.length = ch.length + 1 ∧ ch.length < buffer ∧ r.1.length = pool.length ∧
      held pool = held r.1 + 1 ∧ alive r.1 = alive pool := by
  obtain ⟨y, h1, h2, h3, h4⟩ := send_some h
  have e1 := sum_map_set Worker.load pool i (.sending y) .receiving h1
  have e2 := sum_map_set Worker.alive pool i (.sending y) .receiving h1
  simp only [Worker.load, Worker.alive] at e1 e2
  rw [h3, h4]
  simp only [held, alive, List.length_append, List.length_set, List.length_singleton]
  refine ⟨trivial, h2, trivial, ?_, ?_⟩ <;> omega

theorem exit_counts {β : Type} {closed empty : Bool} {pool : List (Worker β)} {i : Nat}
    {p : List (Worker β)} (h : exit closed empty pool i = some p) :
    closed = true ∧ empty = true ∧ p.length = pool.length ∧ held p = held pool ∧
      alive p + 1 = alive pool := by
  obtain ⟨h1, h2, h3, h4⟩ := exit_some h
  have e1 := sum_map_set Worker.load pool i .receiving .exited h1
  have e2 := sum_map_set Worker.alive pool i .receiving .exited h1
  simp only [Worker.load, Worker.alive] at e1 e2
  rw [h4]
  simp only [held, alive, List.length_set]
  refine ⟨h2, h3, trivial, ?_, ?_⟩ <;> omega

theorem inv_init (S : Stages) : Consistent (init S) := by
  constructor <;> simp [init, inFlight, held, alive, workers, buffer]

theorem inv_step {S : Stages} {s t : State S} {a : Action S} (h : step s a = some t)
    (hs : Consistent s) : Consistent t := by
  obtain ⟨p1, p2, l1, l2, l3, l4, c0, c1, c2, c3, c4, cv, a2, a3, a4, x1⟩ := hs
  simp only [inFlight] at cv
  have b1 := alive_le_length s.submitWorkers
  cases a <;> simp only [step] at h
  case submit x =>
    split at h
    · rename_i hc
      simp only [Option.some.injEq] at h; subst h
      constructor <;> simp only [inFlight, List.length_append, List.length_singleton] <;>
        first
          | assumption
          | omega
          | (intro hx; have := x1 hx; simp_all)
    · simp at h
  case close =>
    split at h
    · simp only [Option.some.injEq] at h; subst h
      constructor <;> simp only [inFlight] <;>
        first
          | assumption
          | omega
          | (intro hx; exact ⟨trivial, (x1 hx).2⟩)
    · simp at h
  case spawn =>
    split at h
    · simp only [Option.some.injEq] at h; subst h
      constructor <;>
        simp only [inFlight, List.length_append, List.length_singleton, held_append_receiving,
          alive_append_receiving] <;>
        first
          | assumption
          | omega
          | (intro hx; exact x1 (by omega))
    · simp at h
  case take =>
    split at h
    · rename_i out rest hq
      simp only [Option.some.injEq] at h; subst h
      rw [hq] at c4 cv
      constructor <;>
        simp only [inFlight, List.length_append, List.length_singleton, List.length_cons,
          List.length_nil] at * <;>
        first
          | assumption
          | omega
    · simp at h
  case submitExit i =>
    obtain ⟨r, hr, rfl⟩ := Option.map_eq_some'.mp h
    obtain ⟨e1, e2, e3, e4, e5⟩ := exit_counts hr
    constructor <;> simp only [inFlight] <;>
      first
        | assumption
        | omega
        | (intro _; exact ⟨e1, by simpa using e2⟩)
  case submitReceive i =>
    obtain ⟨r, hr, rfl⟩ := Option.map_eq_some'.mp h
    obtain ⟨e1, e2, e3, e4⟩ := receive_counts hr
    clear hr h
    constructor <;> simp only [inFlight] <;>
      first
        | assumption
        | omega
  case submitSend i =>
    obtain ⟨r, hr, rfl⟩ := Option.map_eq_some'.mp h
    obtain ⟨e1, e2, e3, e4, e5⟩ := send_counts hr
    clear hr h
    constructor <;> simp only [inFlight] <;>
      first
        | assumption
        | omega
        | (intro hx; have := x1 (by omega); exact ⟨this.1, by omega⟩)
  case downloadReceive i =>
    obtain ⟨r, hr, rfl⟩ := Option.map_eq_some'.mp h
    obtain ⟨e1, e2, e3, e4⟩ := receive_counts hr
    clear hr h
    constructor <;> simp only [inFlight] <;>
      first
        | assumption
        | omega
  case downloadSend i =>
    obtain ⟨r, hr, rfl⟩ := Option.map_eq_some'.mp h
    obtain ⟨e1, e2, e3, e4, e5⟩ := send_counts hr
    clear hr h
    constructor <;> simp only [inFlight] <;>
      first
        | assumption
        | omega
  case ingestReceive i =>
    obtain ⟨r, hr, rfl⟩ := Option.map_eq_some'.mp h
    obtain ⟨e1, e2, e3, e4⟩ := receive_counts hr
    clear hr h
    constructor <;> simp only [inFlight] <;>
      first
        | assumption
        | omega
  case ingestSend i =>
    obtain ⟨r, hr, rfl⟩ := Option.map_eq_some'.mp h
    obtain ⟨e1, e2, e3, e4, e5⟩ := send_counts hr
    clear hr h
    constructor <;> simp only [inFlight] <;>
      first
        | assumption
        | omega
  case cleanupReceive i =>
    obtain ⟨r, hr, rfl⟩ := Option.map_eq_some'.mp h
    obtain ⟨e1, e2, e3, e4⟩ := receive_counts hr
    clear hr h
    constructor <;> simp only [inFlight] <;>
      first
        | assumption
        | omega
  case cleanupSend i =>
    obtain ⟨r, hr, rfl⟩ := Option.map_eq_some'.mp h
    obtain ⟨e1, e2, e3, e4, e5⟩ := send_counts hr
    clear hr h
    constructor <;> simp only [inFlight] <;>
      first
        | assumption
        | omega

theorem consistent_run {S : Stages} {acts : List (Action S)} {s t : State S}
    (h : run s acts = some t) (hs : Consistent s) : Consistent t := by
  induction acts generalizing s with
  | nil =>
    simp only [run, Option.some.injEq] at h
    exact h ▸ hs
  | cons a rest ih =>
    simp only [run] at h
    obtain ⟨u, hu, hrest⟩ := Option.bind_eq_some.mp h
    exact ih hrest (inv_step hu hs)

theorem consistent_of_reachable {S : Stages} {s : State S} (h : Reachable s) : Consistent s := by
  obtain ⟨acts, hacts⟩ := h
  exact consistent_run hacts (inv_init S)

theorem run_append {S : Stages} (pre acts : List (Action S)) (s : State S) :
    run s (pre ++ acts) = (run s pre).bind (fun t => run t acts) := by
  induction pre generalizing s with
  | nil => simp [run]
  | cons a rest ih =>
    simp only [List.cons_append, run]
    cases step s a with
    | none => simp
    | some u => simpa using ih u

theorem reachable_run {S : Stages} {acts : List (Action S)} {s t : State S}
    (hs : Reachable s) (h : run s acts = some t) : Reachable t := by
  obtain ⟨pre, hpre⟩ := hs
  exact ⟨pre ++ acts, by rw [run_append, hpre]; simpa using h⟩

theorem send_full {β : Type} (pool : List (Worker β)) (ch : List β) (i : Nat)
    (h : buffer ≤ ch.length) : send pool ch i = none := by
  unfold send
  split
  · rw [if_neg (by omega)]
  · rfl

theorem held_le_length {α : Type} (pool : List (Worker α)) : held pool ≤ pool.length :=
  le_trans (held_le_alive pool) (alive_le_length pool)

theorem exists_sending {α : Type} (pool : List (Worker α)) (h : 0 < held pool) :
    ∃ (i : Nat) (y : α), pool[i]? = some (Worker.sending y) := by
  induction pool with
  | nil => simp [held] at h
  | cons a l ih =>
    cases a with
    | sending y => exact ⟨0, y, by simp⟩
    | receiving =>
      simp only [held, List.map, List.sum_cons, Worker.load] at h ih
      obtain ⟨i, y, hi⟩ := ih (by omega)
      exact ⟨i + 1, y, by simpa using hi⟩
    | exited =>
      simp only [held, List.map, List.sum_cons, Worker.load] at h ih
      obtain ⟨i, y, hi⟩ := ih (by omega)
      exact ⟨i + 1, y, by simpa using hi⟩

theorem exists_receiving {α : Type} (pool : List (Worker α)) (h : held pool < alive pool) :
    ∃ i : Nat, pool[i]? = some Worker.receiving := by
  induction pool with
  | nil => simp [held, alive] at h
  | cons a l ih =>
    cases a with
    | receiving => exact ⟨0, by simp⟩
    | sending y =>
      simp only [held, alive, List.map, List.sum_cons, Worker.load, Worker.alive] at h ih
      obtain ⟨i, hi⟩ := ih (by omega)
      exact ⟨i + 1, by simpa using hi⟩
    | exited =>
      simp only [held, alive, List.map, List.sum_cons, Worker.load, Worker.alive] at h ih
      obtain ⟨i, hi⟩ := ih (by omega)
      exact ⟨i + 1, by simpa using hi⟩

theorem receive_enabled {α β : Type} (f : α → β) {ch : List α} {pool : List (Worker β)} {i : Nat}
    (hi : pool[i]? = some .receiving) (hch : 0 < ch.length) : (receive f ch pool i).isSome := by
  cases ch with
  | nil => simp at hch
  | cons x rest => simp [receive, hi]

theorem send_enabled {β : Type} {pool : List (Worker β)} (ch : List β) {i : Nat} {y : β}
    (hi : pool[i]? = some (.sending y)) (hch : ch.length < buffer) : (send pool ch i).isSome := by
  simp [send, hi, hch]

theorem exit_enabled {β : Type} {pool : List (Worker β)} {i : Nat}
    (hi : pool[i]? = some .receiving) : (exit true true pool i).isSome := by
  simp [exit, hi]

/-- Progress: a consistent state with a closed intake in which something remains to be done
has a possible action. -/
theorem progress {S : Stages} {s : State S} (hs : Consistent s)
    (hc : s.chanInputClosed = true) (hr : 0 < remaining s) : ∃ a, (step s a).isSome := by
  obtain ⟨p1, p2, l1, l2, l3, l4, c0, c1, c2, c3, c4, cv, a2, a3, a4, x1⟩ := hs
  have b1 := alive_le_length s.submitWorkers
  have g1 := held_le_alive s.submitWorkers
  have g2 := held_le_alive s.downloadWorkers
  have g3 := held_le_alive s.ingestWorkers
  have g4 := held_le_alive s.cleanupWorkers
  simp only [workers, buffer] at *
  by_cases hw : s.w ≤ 10
  · exact ⟨.spawn, by simp [step, workers, hw]⟩
  by_cases h9 : 0 < s.chanOutput.length
  · refine ⟨.take, ?_⟩
    cases hq : s.chanOutput with
    | nil => simp [hq] at h9
    | cons out rest => simp [step, hq]
  by_cases h8 : 0 < held s.cleanupWorkers
  · obtain ⟨i, y, hi⟩ := exists_sending _ h8
    refine ⟨.cleanupSend i, ?_⟩
    have := send_enabled s.chanOutput hi (by simp only [buffer]; omega)
    simpa [step] using this
  by_cases h7 : 0 < s.cleanupChan.length
  · obtain ⟨i, hi⟩ := exists_receiving s.cleanupWorkers (by omega)
    refine ⟨.cleanupReceive i, ?_⟩
    have := receive_enabled S.Cleanup hi h7
    simpa [step] using this
  by_cases h6 : 0 < held s.ingestWorkers
  · obtain ⟨i, y, hi⟩ := exists_sending _ h6
    refine ⟨.ingestSend i, ?_⟩
    have := send_enabled s.cleanupChan hi (by simp only [buffer]; omega)
    simpa [step] using this
  by_cases h5 : 0 < s.ingestChan.length
  · obtain ⟨i, hi⟩ := exists_receiving s.ingestWorkers (by omega)
    refine ⟨.ingestReceive i, ?_⟩
    have := receive_enabled S.Ingest hi h5
    simpa [step] using this
  by_cases h4 : 0 < held s.downloadWorkers
  · obtain ⟨i, y, hi⟩ := exists_sending _ h4
    refine ⟨.downloadSend i, ?_⟩
    have := send_enabled s.ingestChan hi (by simp only [buffer]; omega)
    simpa [step] using this
  by_cases h3 : 0 < s.downloadChan.length
  · obtain ⟨i, hi⟩ := exists_receiving s.downloadWorkers (by omega)
    refine ⟨.downloadReceive i, ?_⟩
    have := receive_enabled S.DownloadFile hi h3
    simpa [step] using this
  by_cases h2 : 0 < held s.submitWorkers
  · obtain ⟨i, y, hi⟩ := exists_sending _ h2
    refine ⟨.submitSend i, ?_⟩
    have := send_enabled s.downloadChan hi (by simp only [buffer]; omega)
    simpa [step] using this
  by_cases h1 : 0 < s.chanInput.length
  · have hal : ¬ alive s.submitWorkers < s.submitWorkers.length := by
      intro hx
      have := (x1 hx).2
      omega
    obtain ⟨i, hi⟩ := exists_receiving s.submitWorkers (by omega)
    refine ⟨.submitReceive i, ?_⟩
    have := receive_enabled S.MakeS3RemoteFile hi h1
    simpa [step] using this
  · have h0 : 0 < alive s.submitWorkers := by
      simp only [remaining, workers] at hr
      omega
    obtain ⟨i, hi⟩ := exists_receiving s.submitWorkers (by omega)
    refine ⟨.submitExit i, ?_⟩
    have he : s.chanInput.isEmpty = true := by
      cases hq : s.chanInput with
      | nil => rfl
      | cons x rest => simp [hq] at h1
    have := exit_enabled hi
    simpa [step, hc, he] using this

/-- Once the intake is closed, every action brings the pipeline one move closer to the end, and
the number of submitted items no longer changes. -/
theorem remaining_step {S : Stages} {s t : State S} {a : Action S} (h : step s a = some t)
    (hc : s.chanInputClosed = true) (hs : Consistent s) :
    t.chanInputClosed = true ∧ remaining t + 1 = remaining s ∧ t.submitted = s.submitted := by
  obtain ⟨p1, p2, l1, l2, l3, l4, c0, c1, c2, c3, c4, cv, a2, a3, a4, x1⟩ := hs
  cases a <;> simp only [step] at h
  case submit x => simp [hc] at h
  case close => simp [hc] at h
  case spawn =>
    split at h
    · simp only [Option.some.injEq] at h; subst h
      refine ⟨hc, ?_, rfl⟩
      simp only [remaining, held_append_receiving, alive_append_receiving]
      omega
    · simp at h
  case take =>
    split at h
    · rename_i out rest hq
      simp only [Option.some.injEq] at h; subst h
      refine ⟨hc, ?_, rfl⟩
      simp only [remaining, hq, List.length_cons]
      omega
    · simp at h
  case submitExit i =>
    obtain ⟨r, hr, rfl⟩ := Option.map_eq_some'.mp h
    obtain ⟨e1, e2, e3, e4, e5⟩ := exit_counts hr
    refine ⟨hc, ?_, rfl⟩
    simp only [remaining]
    omega
  case submitReceive i =>
    obtain ⟨r, hr, rfl⟩ := Option.map_eq_some'.mp h
    obtain ⟨e1, e2, e3, e4⟩ := receive_counts hr
    refine ⟨hc, ?_, rfl⟩
    simp only [remaining]
    omega
  case downloadReceive i =>
    obtain ⟨r, hr, rfl⟩ := Option.map_eq_some'.mp h
    obtain ⟨e1, e2, e3, e4⟩ := receive_counts hr
    refine ⟨hc, ?_, rfl⟩
    simp only [remaining]
    omega
  case ingestReceive i =>
    obtain ⟨r, hr, rfl⟩ := Option.map_eq_some'.mp h
    obtain ⟨e1, e2, e3, e4⟩ := receive_counts hr
    refine ⟨hc, ?_, rfl⟩
    simp only [remaining]
    omega
  case cleanupReceive i =>
    obtain ⟨r, hr, rfl⟩ := Option.map_eq_some'.mp h
    obtain ⟨e1, e2, e3, e4⟩ := receive_counts hr
    refine ⟨hc, ?_, rfl⟩
    simp only [remaining]
    omega
  case submitSend i =>
    obtain ⟨r, hr, rfl⟩ := Option.map_eq_some'.mp h
    obtain ⟨e1, e2, e3, e4, e5⟩ := send_counts hr
    refine ⟨hc, ?_, rfl⟩
    simp only [remaining]
    omega
  case downloadSend i =>
    obtain ⟨r, hr, rfl⟩ := Option.map_eq_some'.mp h
    obtain ⟨e1, e2, e3, e4, e5⟩ := send_counts hr
    refine ⟨hc, ?_, rfl⟩
    simp only [remaining]
    omega
  case ingestSend i =>
    obtain ⟨r, hr, rfl⟩ := Option.map_eq_some'.mp h
    obtain ⟨e1, e2, e3, e4, e5⟩ := send_counts hr
    refine ⟨hc, ?_, rfl⟩
    simp only [remaining]
    omega
  case cleanupSend i =>
    obtain ⟨r, hr, rfl⟩ := Option.map_eq_some'.mp h
    obtain ⟨e1, e2, e3, e4, e5⟩ := send_counts hr
    refine ⟨hc, ?_, rfl⟩
    simp only [remaining]
    omega

/-- Every sequence of actions from a state with a closed intake has as many actions as the
measure has decreased. -/
theorem remaining_run {S : Stages} {acts : List (Action S)} {s t : State S}
    (h : run s acts = some t) (hc : s.chanInputClosed = true) (hs : Consistent s) :
    t.chanInputClosed = true ∧ remaining t + acts.length = remaining s ∧
      t.submitted = s.submitted := by
  induction acts generalizing s with
  | nil =>
    simp only [run, Option.some.injEq] at h
    subst h
    exact ⟨hc, rfl, rfl⟩
  | cons a rest ih =>
    simp only [run] at h
    obtain ⟨u, hu, hrest⟩ := Option.bind_eq_some.mp h
    obtain ⟨k1, k2, k3⟩ := remaining_step hu hc hs
    obtain ⟨m1, m2, m3⟩ := ih hrest k1 (inv_step hu hs)
    refine ⟨m1, ?_, by rw [m3, k3]⟩
    simp only [List.length_cons]
    omega

/-- In a consistent state with a closed intake where no action is possible, nothing is left
inside the pipeline and every submitted item has been received. -/
theorem quiescent_done {S : Stages} {s : State S} (hs : Consistent s)
    (hc : s.chanInputClosed = true) (hq : Quiescent s) :
    inFlight s = 0 ∧ s.received.length = s.submitted := by
  have hz : remaining s = 0 := by
    by_contra hne
    obtain ⟨a, ha⟩ := progress hs hc (Nat.pos_of_ne_zero hne)
    rw [hq a] at ha
    simp at ha
  have hcv := hs.conserve
  simp only [remaining, inFlight] at hz hcv ⊢
  omega

/-- From a consistent state with a closed intake some sequence of actions leads to a state
where no action is possible. -/
theorem exists_quiescent {S : Stages} (n : Nat) (s : State S) (hn : remaining s = n)
    (hc : s.chanInputClosed = true) (hs : Consistent s) :
    ∃ acts t, run s acts = some t ∧ Quiescent t := by
  induction n generalizing s with
  | zero =>
    refine ⟨[], s, rfl, ?_⟩
    intro a
    cases hstep : step s a with
    | none => rfl
    | some t =>
      have := (remaining_step hstep hc hs).2.1
      omega
  | succ k ih =>
    obtain ⟨a, ha⟩ := progress hs hc (by omega)
    obtain ⟨t, ht⟩ := Option.isSome_iff_exists.mp ha
    obtain ⟨k1, k2, _⟩ := remaining_step ht hc hs
    obtain ⟨acts, u, hu, hq⟩ := ih t (by omega) k1 (inv_step ht hs)
    exact ⟨a :: acts, u, by simp [run, ht, hu], hq⟩

end NewPipeline

/-! ## The claims -/

open NewPipeline

/-- C1. On the failure sentinel, `DownloadFile` and `Ingest` return a sentinel and `Cleanup`
returns the completion marker `PipelineOutput{}`. So when a sentinel stands for the output of a
stage (a remote, local or ingested file), the calls the later workers make on it all succeed,
every value obtained on the way is a sentinel, and the last call yields the completion marker,
which is the only value of `PipelineOutput`: the one the `Cleanup` of any item yields. -/
theorem C1_sentinel_absorption (e : GenericError) :
    e.DownloadFile = Value.genericError {} ∧
    e.Ingest = Value.genericError {} ∧
    e.Cleanup = ({} : PipelineOutput) ∧
    (∀ stage : StageOutput, ∃ values : List Value,
      remainingCalls stage (Value.genericError e) = some (values, {}) ∧
        values.all Value.isSentinel = true) ∧
    (∀ out : PipelineOutput, out = e.Cleanup) := by
  refine ⟨rfl, rfl, rfl, ?_, fun _ => rfl⟩
  intro stage
  cases stage
  · exact ⟨[Value.genericError {}, Value.genericError {}], rfl, rfl⟩
  · exact ⟨[Value.genericError {}], rfl, rfl⟩
  · exact ⟨[], rfl, rfl⟩

/-- C2, as stated, fails: `GenericError` does not implement every interface. It declares no
`MakeS3RemoteFile`, so it does not implement `PipelineInput`, and a call of `MakeS3RemoteFile`
on a sentinel has no method to run. -/
theorem C2_sentinel_is_no_pipeline_input :
    (¬ ∀ I : Interface, ConcreteType.GenericError.implements I = true) ∧
    Method.MakeS3RemoteFile ∉ ConcreteType.GenericError.methods ∧
    ConcreteType.GenericError.implements Interface.PipelineInput = false ∧
    Value.MakeS3RemoteFile (Value.genericError {}) = none := by
  refine ⟨?_, by decide, by decide, rfl⟩
  intro h
  exact absurd (h Interface.PipelineInput) (by decide)

/-- C2, amended. `GenericError` declares three of the four capability operations,
`DownloadFile`, `Ingest` and `Cleanup`: it implements `IS3RemoteFile`, `IS3LocalFile` and
`IS3IngestedFile`, and not `PipelineInput`. Through an interface, `DownloadFile` and `Ingest`
on a sentinel return a sentinel, `Cleanup` returns the completion marker, and
`MakeS3RemoteFile` is not available. -/
theorem C2_sentinel_capabilities (e : GenericError) :
    ConcreteType.GenericError.methods = [Method.DownloadFile, Method.Ingest, Method.Cleanup] ∧
    (∀ I : Interface,
      ConcreteType.GenericError.implements I = true ↔ I ≠ Interface.PipelineInput) ∧
    Value.DownloadFile (Value.genericError e) = some (Value.genericError {}) ∧
    Value.Ingest (Value.genericError e) = some (Value.genericError {}) ∧
    Value.Cleanup (Value.genericError e) = some {} ∧
    Value.MakeS3RemoteFile (Value.genericError e) = none := by
  refine ⟨rfl, ?_, rfl, rfl, rfl, rfl⟩
  intro I
  cases I <;> decide

/-- C3. For an object whose key is `k` and whose last-modified time has the Unix value
`tm.Unix`, and for every session, `NewS3Object` returns an `S3Object` whose `Hash` is the
fingerprint of the specification, the SHA-256 digest of `k` followed by the decimal
representation of the Unix value. Any other call with the same key and the same Unix value,
whatever its session and the other fields of its object, returns the same `Hash`. -/
theorem C3_fingerprint (s3obj : s3.Object) (sess : Option session.Session) (k : GoString)
    (tm : time.Time) (hk : s3obj.Key = some k) (ht : s3obj.LastModified = some tm) :
    (∃ o, NewS3Object s3obj sess = .ok o ∧
      o.Hash = sha256.Sum256 (k ++ Spec.decimal tm.Unix) ∧ o.Hash = Spec.fingerprint k tm.Unix) ∧
    (∀ (other : s3.Object) (sess2 : Option session.Session) (tm2 : time.Time),
      other.Key = some k → other.LastModified = some tm2 → tm2.Unix = tm.Unix →
      ∃ o o2, NewS3Object s3obj sess = .ok o ∧ NewS3Object other sess2 = .ok o2 ∧
        o2.Hash = o.Hash) := by
  refine ⟨⟨_, NewS3Object_ok s3obj sess k tm hk ht, rfl, rfl⟩, ?_⟩
  intro other sess2 tm2 h1 h2 h3
  exact ⟨_, _, NewS3Object_ok s3obj sess k tm hk ht, NewS3Object_ok other sess2 k tm2 h1 h2,
    by rw [h3]⟩

/-- C3 at the object with key `a1` last modified at second 2: the hash is the digest of the
three bytes `a12`. -/
theorem C3_fingerprint_witness :
    sampleObject.Key = some [97, 49] ∧ sampleObject.LastModified = some ⟨2, 0⟩ ∧
    ∃ o, NewS3Object sampleObject (some ⟨7⟩) = .ok o ∧
      o.Hash = sha256.Sum256 ([97, 49] ++ Spec.decimal 2) ∧ o.Hash = Spec.fingerprint [97, 49] 2 :=
  ⟨rfl, rfl, (C3_fingerprint sampleObject (some ⟨7⟩) [97, 49] ⟨2, 0⟩ rfl rfl).1⟩

/-- C4. When `N` items have been submitted and the intake is closed, whatever the workers, the
starting loop and the receiver of the output do next: the moves that can follow are bounded in
number, at no time have more than `N` completion markers been sent on the output, a state
where no move is possible is always reached, and in any such state exactly `N` markers have
been sent on the output, and received. -/
theorem C4_every_item_completes {S : Stages} (N : Nat) (s : State S) (hr : Reachable s)
    (hc : s.chanInputClosed = true) (hN : s.submitted = N) :
    (∀ acts t, run s acts = some t →
      acts.length ≤ remaining s ∧ t.chanOutput.length + t.received.length ≤ N) ∧
    (∀ acts t, run s acts = some t → Quiescent t →
      t.chanOutput.length + t.received.length = N ∧ t.received = List.replicate N {}) ∧
    (∃ acts t, run s acts = some t ∧ Quiescent t) := by
  have hs := consistent_of_reachable hr
  refine ⟨?_, ?_, exists_quiescent _ s rfl hc hs⟩
  · intro acts t ht
    obtain ⟨k1, k2, k3⟩ := remaining_run ht hc hs
    have hcv := (consistent_run ht hs).conserve
    simp only [inFlight] at hcv
    omega
  · intro acts t ht hq
    obtain ⟨k1, k2, k3⟩ := remaining_run ht hc hs
    obtain ⟨q1, q2⟩ := quiescent_done (consistent_run ht hs) k1 hq
    simp only [inFlight] at q1
    have hlen : t.received.length = N := by omega
    refine ⟨by omega, ?_⟩
    rw [← hlen]
    exact List.eq_replicate_iff.mpr ⟨rfl, fun _ _ => rfl⟩

/-- C4 with three items submitted and the intake closed: the pipeline comes to rest, and
whenever it does the caller has received exactly three completion markers. -/
theorem C4_every_item_completes_witness :
    run (init failingStages) threeSubmitted = some threeSubmittedState ∧
    threeSubmittedState.chanInputClosed = true ∧
    threeSubmittedState.submitted = 3 ∧
    (∃ acts t, run threeSubmittedState acts = some t ∧ Quiescent t) ∧
    (∀ acts t, run threeSubmittedState acts = some t → Quiescent t →
      t.chanOutput.length + t.received.length = 3 ∧ t.received = [{}, {}, {}]) :=
  ⟨rfl, rfl, rfl,
    (C4_every_item_completes 3 threeSubmittedState ⟨threeSubmitted, rfl⟩ rfl rfl).2.2,
    (C4_every_item_completes 3 threeSubmittedState ⟨threeSubmitted, rfl⟩ rfl rfl).2.1⟩

/-- C5, as stated, fails: with the output never received from, twenty items can have been
submitted in a state where the intake is empty, and the submission of the twenty-first item
does not block: it is accepted at once. -/
theorem C5_twenty_first_submission_accepted :
    run (init failingStages) twentyAccepted = some twentyAcceptedState ∧
    twentyAcceptedState.submitted = 20 ∧
    twentyAcceptedState.received = [] ∧
    twentyAcceptedState.chanOutput = [] ∧
    twentyAcceptedState.chanInputClosed = false ∧
    step twentyAcceptedState (Action.submit ()) =
      some { twentyAcceptedState with chanInput := [()], submitted := 21 } :=
  ⟨rfl, rfl, rfl, rfl, rfl, rfl⟩

/-- C5, amended. While the output is never received from and the intake is open, the
submission of an item blocks exactly when the intake holds `buffer = 10` items, and otherwise
the item is appended to the intake, neither rejected nor dropped. At most
`5 * buffer + 4 * workers = 90` items can have been submitted, and once 90 have been, the next
submission blocks. -/
theorem C5_submission_blocks_on_full_intake {S : Stages} (s : State S) (x : S.PipelineInput)
    (hr : Reachable s) (hd : s.received = []) (ho : s.chanInputClosed = false) :
    (step s (Action.submit x) = none ↔ s.chanInput.length = buffer) ∧
    (∀ t, step s (Action.submit x) = some t →
      t.chanInput = s.chanInput ++ [x] ∧ t.submitted = s.submitted + 1) ∧
    s.submitted ≤ 5 * buffer + 4 * workers ∧
    5 * buffer + 4 * workers = 90 ∧
    (s.submitted = 90 → step s (Action.submit x) = none) := by
  obtain ⟨p1, p2, l1, l2, l3, l4, c0, c1, c2, c3, c4, cv, a2, a3, a4, x1⟩ :=
    consistent_of_reachable hr
  have g1 := held_le_length s.submitWorkers
  have g2 := held_le_length s.downloadWorkers
  have g3 := held_le_length s.ingestWorkers
  have g4 := held_le_length s.cleanupWorkers
  simp only [inFlight, hd, List.length_nil] at cv
  have hiff : step s (Action.submit x) = none ↔ s.chanInput.length = buffer := by
    simp only [step, ho, true_and]
    constructor
    · intro h
      by_contra hne
      rw [if_pos (by omega)] at h
      simp at h
    · intro h
      rw [if_neg (by omega)]
  refine ⟨hiff, ?_, ?_, by decide, ?_⟩
  · intro t ht
    simp only [step, ho, true_and] at ht
    split at ht
    · simp only [Option.some.injEq] at ht
      subst ht
      exact ⟨rfl, rfl⟩
    · simp at ht
  · simp only [buffer, workers] at *
    omega
  · intro h90
    apply hiff.mpr
    simp only [buffer, workers] at *
    omega

set_option maxRecDepth 100000 in
/-- C5, amended, at a state where ninety items have been submitted and none received: the
ninety-first submission blocks. -/
theorem C5_submission_blocks_on_full_intake_witness :
    run (init failingStages) ninetyAccepted = some ninetyAcceptedState ∧
    ninetyAcceptedState.received = [] ∧
    ninetyAcceptedState.chanInputClosed = false ∧
    ninetyAcceptedState.submitted = 90 ∧
    step ninetyAcceptedState (Action.submit ()) = none :=
  ⟨rfl, rfl, rfl, rfl,
    (C5_submission_blocks_on_full_intake ninetyAcceptedState () ⟨ninetyAccepted, rfl⟩
      rfl rfl).2.2.2.2 rfl⟩

/-- C6, as the code has it. For every `S3Object` `o`, `MakeS3RemoteFile` returns `o` itself as
a remote file, with the `Key`, `Hash` and `Session` of `o`. `DownloadFile` does not return `o`
as a local file: `S3Object` declares no `Ingest`, so it does not implement `IS3LocalFile`, the
`return s3obj` of `DownloadFile` is not an allowed conversion and yields no value, and a call
of `Ingest` on `o` has no method to run. -/
theorem C6_download_file_is_no_local_file (o : S3Object) :
    o.MakeS3RemoteFile = some (Value.s3Object o) ∧
    ConcreteType.S3Object.implements Interface.IS3RemoteFile = true ∧
    Method.Ingest ∉ ConcreteType.S3Object.methods ∧
    ConcreteType.S3Object.implements Interface.IS3LocalFile = false ∧
    o.DownloadFile = none ∧
    Value.DownloadFile (Value.s3Object o) = none ∧
    Value.Ingest (Value.s3Object o) = none ∧
    S3Object.DownloadFile ⟨[97, 49], [], none⟩ = none :=
  ⟨rfl, by decide, by decide, by decide, rfl, rfl, rfl, rfl⟩

/-- C7. In every reachable state of the pipeline, across each boundary between two stages (and
across the output), the items in the channel together with the items held by the workers that
send on it are at most `buffer + workers = 20`. -/
theorem C7_in_flight_per_boundary {S : Stages} (s : State S) (hr : Reachable s) :
    s.downloadChan.length + held s.submitWorkers ≤ buffer + workers ∧
    s.ingestChan.length + held s.downloadWorkers ≤ buffer + workers ∧
    s.cleanupChan.length + held s.ingestWorkers ≤ buffer + workers ∧
    s.chanOutput.length + held s.cleanupWorkers ≤ buffer + workers ∧
    buffer + workers = 20 := by
  obtain ⟨p1, p2, l1, l2, l3, l4, c0, c1, c2, c3, c4, cv, a2, a3, a4, x1⟩ :=
    consistent_of_reachable hr
  have g1 := held_le_length s.submitWorkers
  have g2 := held_le_length s.downloadWorkers
  have g3 := held_le_length s.ingestWorkers
  have g4 := held_le_length s.cleanupWorkers
  refine ⟨?_, ?_, ?_, ?_, rfl⟩ <;> simp only [buffer, workers] at * <;> omega

set_option maxRecDepth 100000 in
/-- C7 at the state where ninety items are inside the pipeline: the bound is met at every
boundary. -/
theorem C7_in_flight_per_boundary_witness :
    run (init failingStages) ninetyAccepted = some ninetyAcceptedState ∧
    ninetyAcceptedState.downloadChan.length + held ninetyAcceptedState.submitWorkers = 20 ∧
    ninetyAcceptedState.ingestChan.length + held ninetyAcceptedState.downloadWorkers = 20 ∧
    ninetyAcceptedState.cleanupChan.length + held ninetyAcceptedState.ingestWorkers = 20 ∧
    ninetyAcceptedState.downloadChan.length + held ninetyAcceptedState.submitWorkers ≤
      buffer + workers :=
  ⟨rfl, rfl, rfl, rfl,
    (C7_in_flight_per_boundary ninetyAcceptedState ⟨ninetyAccepted, rfl⟩).1⟩

/-- C8. In every reachable state of the pipeline, the number of submitted items is the number
of items in the five channels, plus the number held by the workers, plus the number of
completion markers received from the output: no item is lost and none is duplicated. A worker
whose output channel is full cannot send: it keeps its item and the state does not change. -/
theorem C8_conservation {S : Stages} (s : State S) (hr : Reachable s) :
    s.submitted =
      (s.chanInput.length + s.downloadChan.length + s.ingestChan.length + s.cleanupChan.length +
        s.chanOutput.length) +
      (held s.submitWorkers + held s.downloadWorkers + held s.ingestWorkers +
        held s.cleanupWorkers) +
      s.received.length ∧
    (∀ i, buffer ≤ s.downloadChan.length → step s (Action.submitSend i) = none) ∧
    (∀ i, buffer ≤ s.ingestChan.length → step s (Action.downloadSend i) = none) ∧
    (∀ i, buffer ≤ s.cleanupChan.length → step s (Action.ingestSend i) = none) ∧
    (∀ i, buffer ≤ s.chanOutput.length → step s (Action.cleanupSend i) = none) := by
  have hcv := (consistent_of_reachable hr).conserve
  simp only [inFlight] at hcv
  refine ⟨by omega, ?_, ?_, ?_, ?_⟩ <;> intro i hfull <;> simp [step, send_full _ _ i hfull]

/-- C8 at the state where three items are submitted: two are in the intake and one is held by
a download worker. -/
theorem C8_conservation_witness :
    run (init failingStages) threeSubmitted = some threeSubmittedState ∧
    threeSubmittedState.submitted = 3 ∧
    threeSubmittedState.chanInput.length = 2 ∧
    held threeSubmittedState.downloadWorkers = 1 ∧
    threeSubmittedState.submitted =
      (threeSubmittedState.chanInput.length + threeSubmittedState.downloadChan.length +
        threeSubmittedState.ingestChan.length + threeSubmittedState.cleanupChan.length +
        threeSubmittedState.chanOutput.length) +
      (held threeSubmittedState.submitWorkers + held threeSubmittedState.downloadWorkers +
        held threeSubmittedState.ingestWorkers + held threeSubmittedState.cleanupWorkers) +
      threeSubmittedState.received.length :=
  ⟨rfl, rfl, rfl, rfl, (C8_conservation threeSubmittedState ⟨threeSubmitted, rfl⟩).1⟩

/-- C9. `NewS3Object` returns an `S3Object` exactly when the `Key` and the `LastModified` of
the object are both present. The object it returns has the key of the given object and the
given session. When either pointer is nil it fails with a nil pointer dereference. -/
theorem C9_new_s3object_nil (s3obj : s3.Object) (sess : Option session.Session) :
    ((∃ o, NewS3Object s3obj sess = .ok o) ↔
      (s3obj.Key ≠ none ∧ s3obj.LastModified ≠ none)) ∧
    (∀ o, NewS3Object s3obj sess = .ok o → s3obj.Key = some o.Key ∧ o.Session = sess) ∧
    ((s3obj.Key = none ∨ s3obj.LastModified = none) →
      NewS3Object s3obj sess = .error Panic.nilPointerDereference) := by
  cases hk : s3obj.Key with
  | none =>
    have h : NewS3Object s3obj sess = .error Panic.nilPointerDereference := by
      simp only [NewS3Object, hk, deref]
      rfl
    simp [h]
  | some k =>
    cases ht : s3obj.LastModified with
    | none =>
      have h : NewS3Object s3obj sess = .error Panic.nilPointerDereference := by
        simp only [NewS3Object, hk, ht, deref]
        rfl
      simp [h]
    | some tm =>
      rw [NewS3Object_ok s3obj sess k tm hk ht]
      refine ⟨by simp, ?_, by simp⟩
      intro o ho
      simp only [Except.ok.injEq] at ho
      subst ho
      exact ⟨rfl, rfl⟩

/-- C10. The bytes `NewS3Object` hashes do not separate the key from the time: the key `a1`
with the time 2 and the key `a` with the time 12 are distinct pairs, both give the three bytes
`a12` to hash, and `NewS3Object` returns the same `Hash` for the two objects, whose keys
differ. -/
theorem C10_fingerprint_collision :
    ((([97, 49] : GoString), (2 : Int)) ≠ (([97] : GoString), (12 : Int))) ∧
    toHash [97, 49] 2 = [97, 49, 50] ∧
    toHash [97] 12 = [97, 49, 50] ∧
    (∃ a b, NewS3Object sampleObject none = .ok a ∧ NewS3Object collidingObject none = .ok b ∧
      a.Key = [97, 49] ∧ b.Key = [97] ∧ a.Hash = b.Hash) := by
  refine ⟨by decide, by decide, by decide, ?_⟩
  have e : toHash [97, 49] 2 = toHash [97] 12 := by decide
  refine ⟨⟨[97, 49], fmt.fmtBytes (sha256.Sum256 (toHash [97, 49] 2)), none⟩,
    ⟨[97], fmt.fmtBytes (sha256.Sum256 (toHash [97] 12)), none⟩, rfl, rfl, rfl, rfl, ?_⟩
  show fmt.fmtBytes (sha256.Sum256 (toHash [97, 49] 2)) =
    fmt.fmtBytes (sha256.Sum256 (toHash [97] 12))
  rw [e]
